import Mathlib

/-!
Verification development for the UAVCAN/Serial transport core
(`pyuavcan/transport/serial/_frame.py` and `pyuavcan/transport/serial/_serial.py`).

The Python code is shallowly embedded:

* byte strings (`bytes`, `memoryview`, `bytearray`) are `List Nat` with every
  element below 256;
* Python's arbitrary-precision integers are `Nat` (or `Int` where the source
  range checks can fail on negative values);
* fallible operations return `Except PyErr _`, where `Except.error`
  corresponds to a Python exception escaping the function;
* the CRC-32C implementation (`pyuavcan.transport.commons.crc.CRC32C`) and the
  data-specifier classes (`pyuavcan.transport.MessageDataSpecifier`,
  `ServiceDataSpecifier`) are not part of the analysed sources, so they are
  modelled from the specification (see the individual doc comments).
-/

/-- The single exception kind relevant to the analysed code paths
(`ValueError` in Python). -/
inductive PyErr
  | valueError
deriving DecidableEq, Repr

deriving instance DecidableEq for Except

/-! ## Little-endian byte serialization (`struct.pack('<...')`) -/

/-- `n` little-endian bytes of `x % 2^(8*n)`, as produced by
`struct.pack` for the fixed-width little-endian fields. -/
def leBytes : Nat → Nat → List Nat
  | 0, _ => []
  | n + 1, x => (x % 256) :: leBytes n (x / 256)

/-- Little-endian deserialization, as performed by `struct.unpack`. -/
def desLE : List Nat → Nat
  | [] => 0
  | b :: rest => b + 256 * desLE rest

/-! ## CRC-32C (Castagnoli)

Modelled from the spec: `pyuavcan.transport.commons.crc.CRC32C` is not among
the analysed sources.  The spec describes it as "Castagnoli CRC, incremental +
residue check" with little-endian `value_as_bytes` and the property that "a
frame decodes iff the residue over the CRC-covered span is zero".  The model
below is the canonical reflected CRC-32C: polynomial `0x1EDC6F41` (reflected
`0x82F63B78`), initial state `0xFFFFFFFF`, output XOR `0xFFFFFFFF`, residue
constant `0xB798B438`.  The model reproduces the published check value
`CRC32C("123456789") = 0xE3069283`. -/

/-- Reflected CRC-32C polynomial. -/
def CRC32C_POLY : Nat := 0x82F63B78

/-- CRC-32C internal-state mask (also the initial state and the output XOR). -/
def CRC32C_MASK : Nat := 0xFFFFFFFF

/-- CRC-32C residue constant: internal state after processing a message
followed by its own CRC bytes. -/
def CRC32C_RESIDUE : Nat := 0xB798B438

/-- One bit step of the reflected CRC-32C register. -/
def crcBit (c : Nat) : Nat :=
  (c >>> 1) ^^^ (if c % 2 = 1 then CRC32C_POLY else 0)

/-- One byte step: XOR the byte into the register, then run eight bit steps. -/
def crcByte (c b : Nat) : Nat := crcBit^[8] (c ^^^ b)

/-- Feed a byte string into the register (the incremental `add`). -/
def crcAdd (c : Nat) (data : List Nat) : Nat := data.foldl crcByte c

/-- Internal register after `CRC32C.new(data)`. -/
def crcNew (data : List Nat) : Nat := crcAdd CRC32C_MASK data

/-- `CRC32C.new(data).value` (output XOR applied). -/
def crcValue (data : List Nat) : Nat := crcNew data ^^^ CRC32C_MASK

/-- `CRC32C.new(data).value_as_bytes`: the value, 4 bytes little-endian. -/
def crcValueAsBytes (data : List Nat) : List Nat := leBytes 4 (crcValue data)

/-- `CRC32C.new(data).check_residue()`. -/
def crcCheckResidue (data : List Nat) : Bool := crcNew data == CRC32C_RESIDUE

/-! ## Data model (`pyuavcan.transport` DataSpecifier / Priority) -/

/-- Modelled from the spec: `pyuavcan.transport.DataSpecifier` with its two
subclasses is not among the analysed sources.  Per the spec it is a "tagged
variant with two cases: Message: 13-bit subject id; Service: 9-bit service id
plus Role ∈ {Request, Response}".  The role is embedded as `isResponse`. -/
inductive DataSpecifier
  | message (subjectId : Nat)
  | service (serviceId : Nat) (isResponse : Bool)
deriving DecidableEq, Repr

/-- Modelled from the spec: `MessageDataSpecifier.__post_init__` accepts
exactly the 13-bit subject ids ("Message: 13-bit subject id"), and
`ServiceDataSpecifier` the 9-bit service ids. -/
def DataSpecifier.valid : DataSpecifier → Prop
  | .message s => s ≤ 2 ^ 13 - 1
  | .service sid _ => sid ≤ 2 ^ 9 - 1

instance : DecidablePred DataSpecifier.valid := by
  intro ds; cases ds <;> simp [DataSpecifier.valid] <;> infer_instance

/-- `ServiceDataSpecifier.SERVICE_ID_MASK` (9-bit service ids per the spec). -/
def SERVICE_ID_MASK : Nat := 2 ^ 9 - 1

def DataSpecifier.isService : DataSpecifier → Bool
  | .message _ => false
  | .service _ _ => true

/-! ## SerialFrame (`pyuavcan/transport/serial/_frame.py`) -/

/-- Wire value standing for an absent node-ID (`_ANONYMOUS_NODE_ID`). -/
def ANONYMOUS_NODE_ID : Nat := 0xFFFF

def NODE_ID_MASK : Nat := 4095

def TRANSFER_ID_MASK : Nat := 2 ^ 64 - 1

def INDEX_MASK : Nat := 2 ^ 31 - 1

def FRAME_DELIMITER_BYTE : Nat := 0x9E

def ESCAPE_BYTE : Nat := 0x8E

/-- `pyuavcan.transport.PayloadMetadata.DATA_TYPE_HASH_MASK` (64-bit hash per
the spec; the class is not among the analysed sources). -/
def DATA_TYPE_HASH_MASK : Nat := 2 ^ 64 - 1

/-- The typed frame record (`SerialFrame`, a frozen dataclass extending the
high-overhead-transport `Frame`).  `priority` embeds the `Priority` enum
member as its integer value 0..7; `payload` is the byte string.  The
`timestamp` is the reception time, opaque to the codec, embedded as `Nat`. -/
structure SerialFrame where
  timestamp : Nat
  priority : Nat
  transfer_id : Nat
  index : Nat
  end_of_transfer : Bool
  payload : List Nat
  source_node_id : Option Nat
  destination_node_id : Option Nat
  data_specifier : DataSpecifier
  data_type_hash : Nat
deriving DecidableEq, Repr

/-- `0 <= nid <= NODE_ID_MASK` for a present node-ID (`None` passes). -/
def nodeIdOk : Option Int → Bool
  | none => true
  | some s => decide (0 ≤ s ∧ s ≤ (NODE_ID_MASK : Int))

/-- `SerialFrame.__post_init__` as a fallible constructor.  The arguments for
the integer fields are `Int` because the source range checks reject negative
Python integers; the checks appear in source order (the `isinstance` type
checks are type-level in this embedding and therefore omitted).  On success
the constructed record holds the (now provably in-range) values. -/
def mkSerialFrame (timestamp : Nat) (priority : Nat)
    (source_node_id destination_node_id : Option Int)
    (data_specifier : DataSpecifier) (data_type_hash transfer_id index : Int)
    (end_of_transfer : Bool) (payload : List Nat) : Except PyErr SerialFrame :=
  if ¬ nodeIdOk source_node_id then .error .valueError
  else if ¬ nodeIdOk destination_node_id then .error .valueError
  else if data_specifier.isService ∧ source_node_id = none then .error .valueError
  else if ¬ (0 ≤ data_type_hash ∧ data_type_hash ≤ (DATA_TYPE_HASH_MASK : Int)) then .error .valueError
  else if ¬ (0 ≤ transfer_id ∧ transfer_id ≤ (TRANSFER_ID_MASK : Int)) then .error .valueError
  else if ¬ (0 ≤ index ∧ index ≤ (INDEX_MASK : Int)) then .error .valueError
  else .ok {
    timestamp := timestamp
    priority := priority
    transfer_id := transfer_id.toNat
    index := index.toNat
    end_of_transfer := end_of_transfer
    payload := payload
    source_node_id := source_node_id.map Int.toNat
    destination_node_id := destination_node_id.map Int.toNat
    data_specifier := data_specifier
    data_type_hash := data_type_hash.toNat }

/-! ## Frame encoding (`SerialFrame.compile_into`) -/

/-- Node-ID on the wire: `_ANONYMOUS_NODE_ID if nid is None else nid`. -/
def nodeIdWire : Option Nat → Nat
  | none => ANONYMOUS_NODE_ID
  | some s => s

/-- The 16-bit encoded data specifier (`data_spec` in `compile_into`):
subject id verbatim for messages, `(1 << 15) | ((1 << 14) if is_response
else 0) | service_id` for services. -/
def dataSpecWire : DataSpecifier → Nat
  | .message s => s
  | .service sid isResp => (1 <<< 15) ||| (if isResp then 1 <<< 14 else 0) ||| sid

/-- `index | ((1 << 31) if end_of_transfer else 0)`. -/
def indexEotWire (f : SerialFrame) : Nat :=
  f.index ||| (if f.end_of_transfer then 1 <<< 31 else 0)

/-- The 28-byte packed header, `_HEADER_WITHOUT_CRC_FORMAT.pack('<BBHHHQQL')`
with version 0. -/
def headerWithoutCrc (f : SerialFrame) : List Nat :=
  leBytes 1 0 ++ leBytes 1 f.priority ++
  leBytes 2 (nodeIdWire f.source_node_id) ++
  leBytes 2 (nodeIdWire f.destination_node_id) ++
  leBytes 2 (dataSpecWire f.data_specifier) ++
  leBytes 8 f.data_type_hash ++ leBytes 8 f.transfer_id ++
  leBytes 4 (indexEotWire f)

/-- The 32-byte header: packed header plus its own CRC-32C. -/
def headerBytes (f : SerialFrame) : List Nat :=
  headerWithoutCrc f ++ crcValueAsBytes (headerWithoutCrc f)

/-- The unescaped frame image `header || payload || payload_crc`: exactly the
sequence that `compile_into` feeds through the escaping loop
(`itertools.chain(header, self.payload, payload_crc_bytes)`). -/
def frameImage (f : SerialFrame) : List Nat :=
  headerBytes f ++ f.payload ++ crcValueAsBytes f.payload

/-- The escaping loop body of `compile_into`: delimiter and escape bytes are
replaced by the escape byte followed by the byte XOR 0xFF; all other bytes
are copied verbatim. -/
def escapeBytes : List Nat → List Nat
  | [] => []
  | b :: rest =>
      if b = FRAME_DELIMITER_BYTE ∨ b = ESCAPE_BYTE then
        ESCAPE_BYTE :: (b ^^^ 0xFF) :: escapeBytes rest
      else b :: escapeBytes rest

/-- The byte sequence `compile_into` writes into the output buffer (the
returned memoryview): opening delimiter, escaped image, closing delimiter.
The caller-supplied buffer is abstracted away; the list is exactly the
written prefix of length `next_byte_index`. -/
def SerialFrame.compileBytes (f : SerialFrame) : List Nat :=
  FRAME_DELIMITER_BYTE :: escapeBytes (frameImage f) ++ [FRAME_DELIMITER_BYTE]

/-- Inverse of the escape substitution (stream-parser side unescaping, used
here to phrase the codec round-trip). -/
def unescapeBytes : List Nat → List Nat
  | [] => []
  | b :: rest =>
      if b = ESCAPE_BYTE then
        match rest with
        | [] => []
        | c :: rest2 => (c ^^^ 0xFF) :: unescapeBytes rest2
      else b :: unescapeBytes rest

/-- Strip the two delimiter bytes (first and last byte) from an encoded frame. -/
def stripFraming (l : List Nat) : List Nat := (l.drop 1).dropLast

/-- Validity of a frame record, i.e. the constructor invariants of
`SerialFrame.__post_init__` together with the type-level facts that in Python
come with the field types: the priority is one of the eight `Priority` enum
members, the data specifier satisfies its own constructor invariant and the
payload is a byte string. -/
def frameOk (f : SerialFrame) : Prop :=
  f.priority < 8 ∧
  (∀ s ∈ f.source_node_id, s ≤ NODE_ID_MASK) ∧
  (∀ d ∈ f.destination_node_id, d ≤ NODE_ID_MASK) ∧
  (f.data_specifier.isService = true → f.source_node_id ≠ none) ∧
  f.data_specifier.valid ∧
  f.data_type_hash ≤ DATA_TYPE_HASH_MASK ∧
  f.transfer_id ≤ TRANSFER_ID_MASK ∧
  f.index ≤ INDEX_MASK ∧
  (∀ b ∈ f.payload, b < 256)

instance : DecidablePred frameOk := by
  intro f; unfold frameOk; infer_instance

/-! ## Frame decoding (`SerialFrame.parse_from_unescaped_image`) -/

/-- The eight fields of `_HEADER_WITHOUT_CRC_FORMAT.unpack_from(header)`. -/
structure HeaderFields where
  version : Nat
  intPriority : Nat
  srcNid : Nat
  dstNid : Nat
  intDataSpec : Nat
  dtHash : Nat
  transferId : Nat
  indexEot : Nat
deriving DecidableEq, Repr

/-- `struct.unpack('<BBHHHQQL')` on the first 28 bytes of the header: peel
the fields off the byte string in layout order. -/
def parseFields (h : List Nat) : HeaderFields :=
  { version := desLE (h.take 1)
    intPriority := desLE ((h.drop 1).take 1)
    srcNid := desLE (((h.drop 1).drop 1).take 2)
    dstNid := desLE ((((h.drop 1).drop 1).drop 2).take 2)
    intDataSpec := desLE (((((h.drop 1).drop 1).drop 2).drop 2).take 2)
    dtHash := desLE ((((((h.drop 1).drop 1).drop 2).drop 2).drop 2).take 8)
    transferId := desLE (((((((h.drop 1).drop 1).drop 2).drop 2).drop 2).drop 8).take 8)
    indexEot := desLE ((((((((h.drop 1).drop 1).drop 2).drop 2).drop 2).drop 8).drop 8).take 4) }

/-- The `try` block at the end of `parse_from_unescaped_image`:
`Priority(int_priority)` and the `SerialFrame(...)` constructor, with
`ValueError` converted to "no frame".  `Priority(p)` raises `ValueError`
for `p` outside the eight enum members. -/
def finishParse (ts : Nat) (hf : HeaderFields) (src dst : Option Nat)
    (ds : DataSpecifier) (payload : List Nat) : Except PyErr (Option SerialFrame) :=
  if hf.intPriority < 8 then
    match mkSerialFrame ts hf.intPriority (src.map Int.ofNat) (dst.map Int.ofNat)
        ds (Int.ofNat hf.dtHash) (Int.ofNat hf.transferId)
        (Int.ofNat (hf.indexEot &&& INDEX_MASK))
        (hf.indexEot &&& (1 <<< 31) ≠ 0) payload with
    | .ok fr => .ok (some fr)
    | .error _ => .ok none
  else .ok none

/-- Wire node-ID decoding: `None if nid == _ANONYMOUS_NODE_ID else nid`. -/
def decodeNid (w : Nat) : Option Nat :=
  if w = ANONYMOUS_NODE_ID then none else some w

/-- `SerialFrame.parse_from_unescaped_image`.  `.ok none` is the Python
`None`; `.error` is an exception escaping the function.  The data-specifier
word is split exactly as in the source; note that the
`MessageDataSpecifier(int_data_spec)` call sits OUTSIDE the `try` block, so
its (spec-modelled, 13-bit) constructor invariant escapes as an exception. -/
def SerialFrame.parseFromUnescapedImage (img : List Nat) (ts : Nat) :
    Except PyErr (Option SerialFrame) :=
  if img.length < 36 then .ok none
  else if ¬ crcCheckResidue (img.take 32) then .ok none
  else if ¬ crcCheckResidue (img.drop 32) then .ok none
  else if (parseFields (img.take 32)).version ≠ 0 then .ok none
  else if (parseFields (img.take 32)).intDataSpec &&& (1 <<< 15) = 0 then
    if (parseFields (img.take 32)).intDataSpec ≤ 2 ^ 13 - 1 then
      finishParse ts (parseFields (img.take 32))
        (decodeNid (parseFields (img.take 32)).srcNid)
        (decodeNid (parseFields (img.take 32)).dstNid)
        (.message (parseFields (img.take 32)).intDataSpec)
        ((img.drop 32).take ((img.drop 32).length - 4))
    else .error .valueError
  else
    finishParse ts (parseFields (img.take 32))
      (decodeNid (parseFields (img.take 32)).srcNid)
      (decodeNid (parseFields (img.take 32)).dstNid)
      (.service ((parseFields (img.take 32)).intDataSpec &&& SERVICE_ID_MASK)
        ((parseFields (img.take 32)).intDataSpec &&& (1 <<< 14) ≠ 0))
      ((img.drop 32).take ((img.drop 32).length - 4))

/-! ## Transport engine (`pyuavcan/transport/serial/_serial.py`) -/

/-- Input-session registry key: `(data_specifier, source_node_id)`
(`pyuavcan.transport.InputSessionSpecifier`). -/
abbrev SpecKey := DataSpecifier × Option Nat

/-- Association-list lookup used to model `self._input_registry[ss]`
(sessions are identified by `Nat` handles). -/
def lookupKey (reg : List (SpecKey × Nat)) (k : SpecKey) : Option Nat :=
  match reg with
  | [] => none
  | (k0, v) :: rest => if k0 = k then some v else lookupKey rest k

/-- Receive-side engine state observed by `_handle_received_frame`: the
`in_frames` statistics counter and the input-session registry. -/
structure EngineRxState where
  in_frames : Nat
  registry : List (SpecKey × Nat)
deriving DecidableEq, Repr

/-- The Python set `{None, frame.source_node_id}` iterated by the routing
loop (one element when the source is anonymous). -/
def sourceNodeSet (f : SerialFrame) : List (Option Nat) :=
  match f.source_node_id with
  | none => [none]
  | some s => [none, some s]

/-- `SerialTransport._handle_received_frame`: increment `in_frames`, then, if
the destination is the local node or absent, deliver to the existing input
sessions keyed by `(data_specifier, source)` for `source` in
`{None, frame.source_node_id}`.  Returns the new state and the session
handles the frame was delivered to. -/
def handleReceivedFrame (localNodeId : Option Nat) (st : EngineRxState)
    (f : SerialFrame) : EngineRxState × List Nat :=
  let st1 : EngineRxState := { st with in_frames := st.in_frames + 1 }
  if f.destination_node_id = localNodeId ∨ f.destination_node_id = none then
    (st1, (sourceNodeSet f).filterMap
      (fun sn => lookupKey st.registry (f.data_specifier, sn)))
  else (st1, [])

/-! ### Send path (`SerialTransport._send_transfer`) -/

/-- Output statistics counters touched by `_send_transfer`. -/
structure TxStats where
  out_bytes : Nat
  out_frames : Nat
  out_transfers : Nat
  out_incomplete : Nat
deriving DecidableEq, Repr

/-- Result of one `self._serial_port.write(compiled)` call: either the
`serial.SerialTimeoutException`, or a return value (PySerial may return
`None`, which the source maps to a full write). -/
inductive WriteOutcome
  | timeoutExc
  | wrote (n : Option Nat)
deriving DecidableEq, Repr

/-- Environment of one loop iteration: the event-loop clock value read for
the deadline computation, the `Timestamp.now()` taken after a returning
write, and the write outcome. -/
structure FrameEnv where
  now : Int
  tsNow : Nat
  outcome : WriteOutcome
deriving DecidableEq, Repr

/-- The `for fr in frames` loop of `_send_transfer`.  Mirrors the source:
compute the remaining budget; if exhausted, clear the timestamp and break;
otherwise perform the write (a timeout exception yields `num_written = 0`),
record the first transmission timestamp, accumulate `out_bytes`, map a
`None` return to a full write, and abort on a short write; on a full write
accumulate `out_frames` and continue. -/
def sendLoop (deadline : Int) :
    List (SerialFrame × FrameEnv) → TxStats → Option Nat → TxStats × Option Nat
  | [], st, txTs => (st, txTs)
  | (fr, env) :: rest, st, txTs =>
      let compiledLen := fr.compileBytes.length
      if deadline - env.now > 0 then
        match env.outcome with
        | .timeoutExc =>
            -- num_written = 0; out_bytes += 0; 0 < len(compiled) aborts
            (st, none)
        | .wrote n =>
            let txTs1 := match txTs with
              | some t => some t
              | none => some env.tsNow
            let st1 : TxStats := { st with out_bytes := st.out_bytes + n.getD 0 }
            if n.getD compiledLen < compiledLen then (st1, none)
            else sendLoop deadline rest
              { st1 with out_frames := st1.out_frames + 1 } txTs1
      else (st, none)

/-- `SerialTransport._send_transfer` (statistics part): run the loop, then
count the transfer as complete or incomplete according to whether a
timestamp survived, and return the timestamp. -/
def sendTransfer (deadline : Int) (frames : List (SerialFrame × FrameEnv))
    (st : TxStats) : TxStats × Option Nat :=
  if (sendLoop deadline frames st none).2.isSome then
    ({ (sendLoop deadline frames st none).1 with
        out_transfers := (sendLoop deadline frames st none).1.out_transfers + 1 },
      (sendLoop deadline frames st none).2)
  else
    ({ (sendLoop deadline frames st none).1 with
        out_incomplete := (sendLoop deadline frames st none).1.out_incomplete + 1 },
      (sendLoop deadline frames st none).2)

/-- A frame/environment pair whose write completes fully before the
deadline: positive remaining budget, no timeout exception, and a return
value (`None` counts as the full length) not short of the compiled length. -/
def fullWrite (deadline : Int) (p : SerialFrame × FrameEnv) : Bool :=
  decide (deadline - p.2.now > 0) &&
    match p.2.outcome with
    | .timeoutExc => false
    | .wrote n => decide (p.1.compileBytes.length ≤ n.getD p.1.compileBytes.length)

/-! ### Scratch serialization buffer growth -/

/-- The grow-on-demand rule of `_send_transfer`: replace the buffer by one of
`3 * len(payload)` bytes whenever the current one is smaller. -/
def grownBufferLength (current payloadLen : Nat) : Nat :=
  if current < payloadLen * 3 then payloadLen * 3 else current

/-! ### Engine lifecycle (`Open → Closed`) -/

/-- Engine state relevant to the lifecycle claims: the `_closed` flag and the
domains of the two session registries. -/
structure EngineState where
  closed : Bool
  inputKeys : List SpecKey
  outputKeys : List SpecKey
deriving DecidableEq, Repr

/-- The public operations of the engine. -/
inductive EngineOp
  | close
  | getInputSession (k : SpecKey)
  | getOutputSession (k : SpecKey)
  | sendTransferOp
  | sampleStatistics
deriving DecidableEq, Repr

/-- Result of a public operation: normal return, or
`pyuavcan.transport.ResourceClosedError` raised by `_ensure_not_closed`. -/
inductive OpResult
  | ok
  | resourceClosedError
deriving DecidableEq, Repr

/-- One public operation of `SerialTransport`.  `close` sets the `_closed`
flag (idempotently; closing sessions and the port are external effects).
`get_input_session`/`get_output_session` call `_ensure_not_closed` and then
idempotently create the registry entry; `_send_transfer` calls
`_ensure_not_closed`; `sample_statistics` returns a snapshot copy with no
closed-state check. -/
def engineStep (st : EngineState) : EngineOp → EngineState × OpResult
  | .close => ({ st with closed := true }, .ok)
  | .getInputSession k =>
      if st.closed then (st, .resourceClosedError)
      else if k ∈ st.inputKeys then (st, .ok)
      else ({ st with inputKeys := k :: st.inputKeys }, .ok)
  | .getOutputSession k =>
      if st.closed then (st, .resourceClosedError)
      else if k ∈ st.outputKeys then (st, .ok)
      else ({ st with outputKeys := k :: st.outputKeys }, .ok)
  | .sendTransferOp =>
      if st.closed then (st, .resourceClosedError) else (st, .ok)
  | .sampleStatistics => (st, .ok)

/-! ## Basic lemmas about byte serialization -/

theorem leBytes_length (n x : Nat) : (leBytes n x).length = n := by
  induction n generalizing x with
  | zero => rfl
  | succ n ih => simp [leBytes, ih]

theorem leBytes_bytes_lt (n x : Nat) : ∀ b ∈ leBytes n x, b < 256 := by
  induction n generalizing x with
  | zero => intro b hb; cases hb
  | succ n ih =>
      intro b hb
      rcases hb with _ | ⟨_, hb⟩
      · exact Nat.mod_lt _ (by norm_num)
      · exact ih _ _ hb

theorem desLE_leBytes (n x : Nat) (h : x < 2 ^ (8 * n)) :
    desLE (leBytes n x) = x := by
  induction n generalizing x with
  | zero =>
      interval_cases x
      rfl
  | succ n ih =>
      have hdiv : x / 256 < 2 ^ (8 * n) := by
        apply Nat.div_lt_of_lt_mul
        have : 2 ^ (8 * (n + 1)) = 2 ^ (8 * n) * 256 := by ring
        omega
      have := ih (x / 256) hdiv
      simp only [leBytes, desLE, this]
      omega

/-! ## Bit-manipulation helper lemmas -/

theorem xor_shiftRight (x y k : Nat) : (x ^^^ y) >>> k = (x >>> k) ^^^ (y >>> k) := by
  apply Nat.eq_of_testBit_eq
  intro i
  simp [Nat.testBit_shiftRight, Nat.testBit_xor]

theorem xor_mod_two_pow (x y k : Nat) :
    (x ^^^ y) % 2 ^ k = (x % 2 ^ k) ^^^ (y % 2 ^ k) := by
  apply Nat.eq_of_testBit_eq
  intro i
  simp only [Nat.testBit_mod_two_pow, Nat.testBit_xor]
  cases decide (i < k) <;> simp

theorem xor_rearrange (a b p : Nat) : (a ^^^ p) ^^^ (b ^^^ p) = a ^^^ b := by
  apply Nat.eq_of_testBit_eq
  intro i
  simp only [Nat.testBit_xor]
  cases a.testBit i <;> cases b.testBit i <;> cases p.testBit i <;> rfl

theorem xor_regroup (a b c d : Nat) : (a ^^^ b) ^^^ (c ^^^ d) = (a ^^^ c) ^^^ (b ^^^ d) := by
  apply Nat.eq_of_testBit_eq
  intro i
  simp only [Nat.testBit_xor]
  cases a.testBit i <;> cases b.testBit i <;> cases c.testBit i <;> cases d.testBit i <;> rfl

theorem xor_mod_self (x : Nat) : x ^^^ x % 256 = (x >>> 8) <<< 8 := by
  apply Nat.eq_of_testBit_eq
  intro i
  have h256 : (256 : Nat) = 2 ^ 8 := by norm_num
  rw [h256]
  simp only [Nat.testBit_xor, Nat.testBit_mod_two_pow, Nat.testBit_shiftLeft,
    Nat.testBit_shiftRight]
  by_cases hi : i < 8
  · have : ¬ i ≥ 8 := by omega
    simp [hi, this]
  · have h8 : 8 + (i - 8) = i := by omega
    have : i ≥ 8 := by omega
    simp [hi, this, h8]

/-! ## CRC-32C register lemmas -/

theorem crcBit_lt {c : Nat} (h : c < 2 ^ 32) : crcBit c < 2 ^ 32 := by
  unfold crcBit
  apply Nat.xor_lt_two_pow
  · have h1 : c >>> 1 ≤ c := by
      rw [Nat.shiftRight_eq_div_pow]
      exact Nat.div_le_self _ _
    omega
  · split
    · norm_num [CRC32C_POLY]
    · positivity

theorem crcBit_iterate_lt (n : Nat) {c : Nat} (h : c < 2 ^ 32) :
    crcBit^[n] c < 2 ^ 32 := by
  induction n generalizing c with
  | zero => exact h
  | succ n ih => rw [Function.iterate_succ_apply]; exact ih (crcBit_lt h)

theorem crcBit_linear (x y : Nat) : crcBit (x ^^^ y) = crcBit x ^^^ crcBit y := by
  unfold crcBit
  have hp : (x ^^^ y) % 2 = x % 2 ^^^ y % 2 := by
    have := xor_mod_two_pow x y 1
    simpa using this
  rcases Nat.mod_two_eq_zero_or_one x with hx | hx <;>
    rcases Nat.mod_two_eq_zero_or_one y with hy | hy <;>
      simp only [hp, hx, hy, xor_shiftRight] <;> norm_num
  all_goals
    apply Nat.eq_of_testBit_eq
    intro i
    simp only [Nat.testBit_xor]
    cases (x >>> 1).testBit i <;> cases (y >>> 1).testBit i <;>
      cases CRC32C_POLY.testBit i <;> rfl

theorem crcBit_iterate_linear (n x y : Nat) :
    crcBit^[n] (x ^^^ y) = crcBit^[n] x ^^^ crcBit^[n] y := by
  induction n generalizing x y with
  | zero => rfl
  | succ n ih =>
      rw [Function.iterate_succ_apply, Function.iterate_succ_apply,
        Function.iterate_succ_apply, crcBit_linear, ih]

theorem crcBit_zero : crcBit 0 = 0 := by decide

theorem crcBit_shiftLeft_xor (b R : Nat) : crcBit ((b <<< 1) ^^^ R) = b ^^^ crcBit R := by
  unfold crcBit
  have heven : (b <<< 1) % 2 = 0 := by
    rw [Nat.shiftLeft_eq]
    omega
  have hp : ((b <<< 1) ^^^ R) % 2 = R % 2 := by
    have := xor_mod_two_pow (b <<< 1) R 1
    simp only [pow_one] at this
    rw [this, heven, Nat.zero_xor]
  have hs : ((b <<< 1) ^^^ R) >>> 1 = b ^^^ (R >>> 1) := by
    rw [xor_shiftRight]
    congr 1
    rw [Nat.shiftLeft_eq, Nat.shiftRight_eq_div_pow]
    simp
  rw [hp, hs]
  rcases Nat.mod_two_eq_zero_or_one R with hR | hR <;> simp [hR, Nat.xor_assoc]

theorem crcBit_iterate_shiftLeft (j a R : Nat) :
    crcBit^[j] ((a <<< j) ^^^ R) = a ^^^ crcBit^[j] R := by
  induction j generalizing R with
  | zero => simp
  | succ j ih =>
      have hshift : a <<< (j + 1) = (a <<< j) <<< 1 := by
        simp only [Nat.shiftLeft_eq]
        ring
      rw [Function.iterate_succ_apply, Function.iterate_succ_apply, hshift,
        crcBit_shiftLeft_xor, ih]

theorem crcAdd_nil (c : Nat) : crcAdd c [] = c := rfl

theorem crcAdd_cons (c b : Nat) (t : List Nat) :
    crcAdd c (b :: t) = crcAdd (crcByte c b) t := rfl

theorem crcAdd_append (c : Nat) (l1 l2 : List Nat) :
    crcAdd c (l1 ++ l2) = crcAdd (crcAdd c l1) l2 := by
  simp [crcAdd, List.foldl_append]

theorem crcByte_lt {c b : Nat} (hc : c < 2 ^ 32) (hb : b < 256) :
    crcByte c b < 2 ^ 32 := by
  unfold crcByte
  apply crcBit_iterate_lt
  exact Nat.xor_lt_two_pow hc (by omega)

theorem crcAdd_lt {c : Nat} {data : List Nat} (hc : c < 2 ^ 32)
    (hd : ∀ b ∈ data, b < 256) : crcAdd c data < 2 ^ 32 := by
  induction data generalizing c with
  | nil => exact hc
  | cons b t ih =>
      rw [crcAdd_cons]
      exact ih (crcByte_lt hc (hd b (by simp))) (fun x hx => hd x (by simp [hx]))

/-- Accumulator for the residue computation: the register contribution after
feeding `n` value bytes, starting from contribution `R`. -/
def resFun : Nat → Nat → Nat
  | 0, R => R
  | n + 1, R => resFun n (crcBit^[8] (R ^^^ 255))

theorem crcAdd_leBytes_value : ∀ (n s R : Nat), s < 2 ^ (8 * n) →
    crcAdd (s ^^^ R) (leBytes n (s ^^^ (2 ^ (8 * n) - 1))) = resFun n R := by
  intro n
  induction n with
  | zero =>
      intro s R hs
      interval_cases s
      simp [leBytes, crcAdd_nil, resFun]
  | succ n ih =>
      intro s R hs
      have hpow : 2 ^ (8 * (n + 1)) = 2 ^ (8 * n) * 256 := by ring
      have hone : 1 ≤ 2 ^ (8 * n) := Nat.one_le_two_pow
      -- the first value byte
      have hm_mod : (2 ^ (8 * (n + 1)) - 1) % 256 = 255 := by
        rw [hpow]
        omega
      have hb : (s ^^^ (2 ^ (8 * (n + 1)) - 1)) % 256 = s % 256 ^^^ 255 := by
        have h := xor_mod_two_pow s (2 ^ (8 * (n + 1)) - 1) 8
        norm_num at h
        rw [h, hm_mod]
      -- the remaining value bytes
      have hdiv : (s ^^^ (2 ^ (8 * (n + 1)) - 1)) / 256 =
          (s >>> 8) ^^^ (2 ^ (8 * n) - 1) := by
        have h8 : ∀ x : Nat, x / 256 = x >>> 8 := by
          intro x
          rw [Nat.shiftRight_eq_div_pow]
        rw [h8, xor_shiftRight]
        congr 1
        rw [Nat.shiftRight_eq_div_pow]
        norm_num
        rw [hpow]
        omega
      have hs8 : s >>> 8 < 2 ^ (8 * n) := by
        rw [Nat.shiftRight_eq_div_pow]
        norm_num
        apply Nat.div_lt_of_lt_mul
        omega
      -- the first byte step
      have hstep : crcByte (s ^^^ R) (s % 256 ^^^ 255) =
          (s >>> 8) ^^^ crcBit^[8] (R ^^^ 255) := by
        unfold crcByte
        have harr : (s ^^^ R) ^^^ (s % 256 ^^^ 255) =
            ((s >>> 8) <<< 8) ^^^ (R ^^^ 255) := by
          rw [xor_regroup, xor_mod_self]
        rw [harr, crcBit_iterate_shiftLeft]
      calc crcAdd (s ^^^ R) (leBytes (n + 1) (s ^^^ (2 ^ (8 * (n + 1)) - 1)))
          = crcAdd (crcByte (s ^^^ R) (s % 256 ^^^ 255))
              (leBytes n ((s >>> 8) ^^^ (2 ^ (8 * n) - 1))) := by
            rw [leBytes, crcAdd_cons, hb, hdiv]
        _ = crcAdd ((s >>> 8) ^^^ crcBit^[8] (R ^^^ 255))
              (leBytes n ((s >>> 8) ^^^ (2 ^ (8 * n) - 1))) := by rw [hstep]
        _ = resFun n (crcBit^[8] (R ^^^ 255)) := ih (s >>> 8) _ hs8
        _ = resFun (n + 1) R := rfl

theorem resFun_four : resFun 4 0 = CRC32C_RESIDUE := by decide

/-- Appending `value_as_bytes` to any byte string drives the CRC-32C register
to the residue constant: the residue check accepts `data ++ CRC(data)`. -/
theorem crcCheckResidue_append (data : List Nat) (h : ∀ b ∈ data, b < 256) :
    crcCheckResidue (data ++ crcValueAsBytes data) = true := by
  unfold crcCheckResidue crcValueAsBytes crcValue crcNew
  rw [crcAdd_append]
  have hs : crcAdd CRC32C_MASK data < 2 ^ 32 := by
    apply crcAdd_lt _ h
    norm_num [CRC32C_MASK]
  have hmask : CRC32C_MASK = 2 ^ (8 * 4) - 1 := by norm_num [CRC32C_MASK]
  have h32 : (2 : Nat) ^ (8 * 4) = 2 ^ 32 := by norm_num
  have hmain := crcAdd_leBytes_value 4 (crcAdd CRC32C_MASK data) 0
    (by rw [h32]; exact hs)
  rw [Nat.xor_zero, ← hmask] at hmain
  rw [hmain, resFun_four]
  simp

/-! ### CRC linearity (for the bit-flip claim) -/

theorem crcByte_linear (c1 c2 b1 b2 : Nat) :
    crcByte (c1 ^^^ c2) (b1 ^^^ b2) = crcByte c1 b1 ^^^ crcByte c2 b2 := by
  unfold crcByte
  rw [xor_regroup, crcBit_iterate_linear]

theorem crcAdd_linear : ∀ (d e : List Nat) (c1 c2 : Nat), d.length = e.length →
    crcAdd (c1 ^^^ c2) (List.zipWith (· ^^^ ·) d e) = crcAdd c1 d ^^^ crcAdd c2 e := by
  intro d
  induction d with
  | nil =>
      intro e c1 c2 hlen
      cases e with
      | nil => simp [crcAdd_nil]
      | cons b t => simp at hlen
  | cons b t ih =>
      intro e c1 c2 hlen
      cases e with
      | nil => simp at hlen
      | cons b2 t2 =>
          simp only [List.zipWith_cons_cons, crcAdd_cons]
          rw [crcByte_linear]
          exact ih t2 _ _ (by simpa using hlen)

theorem crcByte_zero : crcByte 0 0 = 0 := by decide

theorem crcBit_ne_zero {c : Nat} (hlt : c < 2 ^ 32) (hne : c ≠ 0) : crcBit c ≠ 0 := by
  unfold crcBit
  rcases Nat.mod_two_eq_zero_or_one c with hc | hc
  · simp only [hc]
    norm_num
    rw [Nat.shiftRight_eq_div_pow]
    intro h0
    omega
  · simp only [hc]
    norm_num
    intro h0
    have hbit : ((c >>> 1) ^^^ CRC32C_POLY).testBit 31 = true := by
      rw [Nat.testBit_xor]
      have h1 : (c >>> 1).testBit 31 = false := by
        apply Nat.testBit_lt_two_pow
        rw [Nat.shiftRight_eq_div_pow]
        omega
      have h2 : CRC32C_POLY.testBit 31 = true := by decide
      rw [h1, h2]
      rfl
    rw [h0] at hbit
    simp [Nat.zero_testBit] at hbit

theorem crcBit_iterate_ne_zero (n : Nat) {c : Nat} (hlt : c < 2 ^ 32) (hne : c ≠ 0) :
    crcBit^[n] c ≠ 0 := by
  induction n generalizing c with
  | zero => exact hne
  | succ n ih =>
      rw [Function.iterate_succ_apply]
      exact ih (crcBit_lt hlt) (crcBit_ne_zero hlt hne)

theorem crcAdd_replicate_ne_zero (k : Nat) {c : Nat} (hlt : c < 2 ^ 32) (hne : c ≠ 0) :
    crcAdd c (List.replicate k 0) ≠ 0 := by
  induction k generalizing c with
  | zero => exact hne
  | succ k ih =>
      rw [List.replicate_succ, crcAdd_cons]
      have hstep : crcByte c 0 = crcBit^[8] c := by
        unfold crcByte
        rw [Nat.xor_zero]
      rw [hstep]
      exact ih (crcBit_iterate_lt 8 hlt) (crcBit_iterate_ne_zero 8 hlt hne)

theorem singleBit_crcByte : ∀ i < 8, crcByte 0 (1 <<< i) ≠ 0 ∧ crcByte 0 (1 <<< i) < 2 ^ 32 := by
  decide

/-- The register perturbation caused by a single-bit error pattern is nonzero. -/
theorem crcAdd_flip_pattern_ne_zero (j k i : Nat) (hi : i < 8) :
    crcAdd 0 (List.replicate j 0 ++ (1 <<< i) :: List.replicate k 0) ≠ 0 := by
  rw [crcAdd_append]
  have hrep : crcAdd 0 (List.replicate j 0) = 0 := by
    induction j with
    | zero => rfl
    | succ j ih => rw [List.replicate_succ, crcAdd_cons, crcByte_zero]; exact ih
  rw [hrep, crcAdd_cons]
  exact crcAdd_replicate_ne_zero k (singleBit_crcByte i hi).2 (singleBit_crcByte i hi).1

theorem zipWith_xor_replicate_zero (l : List Nat) :
    List.zipWith (· ^^^ ·) l (List.replicate l.length 0) = l := by
  induction l with
  | nil => rfl
  | cons b t ih =>
      simp only [List.length_cons, List.replicate_succ, List.zipWith_cons_cons,
        Nat.xor_zero, ih]

/-- The single-bit error pattern of length `L` with byte `1 <<< i` at index `j`. -/
def flipPattern (L j i : Nat) : List Nat :=
  List.replicate j 0 ++ (1 <<< i) :: List.replicate (L - j - 1) 0

theorem flipPattern_length {L j : Nat} (i : Nat) (hj : j < L) :
    (flipPattern L j i).length = L := by
  unfold flipPattern
  simp [List.length_append, List.length_replicate]
  omega

/-- Flip one bit of a byte string (the corruption considered by the claim). -/
def flipBit (img : List Nat) (j i : Nat) : List Nat :=
  img.set j (img.getD j 0 ^^^ (1 <<< i))

theorem flipBit_as_zipWith : ∀ (img : List Nat) (j i : Nat), j < img.length →
    flipBit img j i = List.zipWith (· ^^^ ·) img (flipPattern img.length j i) := by
  intro img
  induction img with
  | nil => intro j i hj; simp at hj
  | cons b t ih =>
      intro j i hj
      cases j with
      | zero =>
          simp only [flipBit, flipPattern, List.length_cons, List.getD_cons_zero,
            List.set, List.replicate, List.nil_append, List.zipWith_cons_cons]
          congr 1
          have := zipWith_xor_replicate_zero t
          simpa using this.symm
      | succ j =>
          have hj' : j < t.length := by simpa using hj
          have ihj := ih j i hj'
          simp only [flipBit, flipPattern, List.length_cons, List.getD_cons_succ,
            List.set_cons_succ, List.replicate_succ, List.cons_append,
            List.zipWith_cons_cons, Nat.xor_zero]
          congr 1
          have hsub : t.length + 1 - (j + 1) - 1 = t.length - j - 1 := by omega
          rw [hsub]
          exact ihj

/-- Applying a single-bit error pattern to a byte string that passes the
CRC-32C residue check makes the check fail. -/
theorem crcCheckResidue_zip_flip {l : List Nat} {j i : Nat} (hj : j < l.length)
    (hi : i < 8) (hres : crcCheckResidue l = true) :
    crcCheckResidue (List.zipWith (· ^^^ ·) l (flipPattern l.length j i)) = false := by
  unfold crcCheckResidue crcNew at *
  have hlen : l.length = (flipPattern l.length j i).length :=
    (flipPattern_length i hj).symm
  have hmask : CRC32C_MASK = CRC32C_MASK ^^^ 0 := by rw [Nat.xor_zero]
  have hlin := crcAdd_linear l (flipPattern l.length j i) CRC32C_MASK 0 hlen
  rw [← hmask] at hlin
  rw [hlin]
  have hdelta : crcAdd 0 (flipPattern l.length j i) ≠ 0 :=
    crcAdd_flip_pattern_ne_zero j (l.length - j - 1) i hi
  have hres' : crcAdd CRC32C_MASK l = CRC32C_RESIDUE := by
    simpa using hres
  rw [hres']
  simp only [beq_eq_false_iff_ne, ne_eq]
  intro hcontra
  apply hdelta
  have := congrArg (fun x => CRC32C_RESIDUE ^^^ x) hcontra
  simpa [← Nat.xor_assoc] using this

/-- Flipping any single bit of a byte string that passes the CRC-32C residue
check makes the check fail. -/
theorem crcCheckResidue_flipBit {l : List Nat} {j i : Nat} (hj : j < l.length)
    (hi : i < 8) (hres : crcCheckResidue l = true) :
    crcCheckResidue (flipBit l j i) = false := by
  rw [flipBit_as_zipWith l j i hj]
  exact crcCheckResidue_zip_flip hj hi hres

/-! ## Escaping lemmas -/

/-- Per-byte escape substitution (phrasing of the spec sentence "every
occurrence of either 0x9E or 0x8E is replaced by the pair 0x8E, (b XOR
0xFF); no other bytes are escaped"). -/
def escByte (b : Nat) : List Nat :=
  if b = FRAME_DELIMITER_BYTE ∨ b = ESCAPE_BYTE then [ESCAPE_BYTE, b ^^^ 0xFF] else [b]

theorem escapeBytes_cons (b : Nat) (t : List Nat) :
    escapeBytes (b :: t) =
      if b = FRAME_DELIMITER_BYTE ∨ b = ESCAPE_BYTE then
        ESCAPE_BYTE :: (b ^^^ 0xFF) :: escapeBytes t
      else b :: escapeBytes t := rfl

theorem escapeBytes_eq_flatMap (l : List Nat) : escapeBytes l = l.flatMap escByte := by
  induction l with
  | nil => rfl
  | cons b t ih =>
      rw [List.flatMap_cons, ← ih, escapeBytes_cons]
      unfold escByte
      split <;> simp

theorem escapeBytes_no_delim (l : List Nat) :
    ∀ x ∈ escapeBytes l, x ≠ FRAME_DELIMITER_BYTE := by
  induction l with
  | nil => simp [escapeBytes]
  | cons b t ih =>
      unfold escapeBytes
      split
      · rename_i hb
        intro x hx
        rcases hx with _ | ⟨_, hx2⟩
        · decide
        · rcases hx2 with _ | ⟨_, hx3⟩
          · rcases hb with hb | hb <;> rw [hb] <;> decide
          · exact ih x hx3
      · rename_i hb
        intro x hx
        rcases hx with _ | ⟨_, hx2⟩
        · intro hcon
          exact hb (Or.inl hcon)
        · exact ih x hx2

theorem escapeBytes_esc_not_last (l : List Nat) :
    ∀ i, (escapeBytes l).getD i 0 = ESCAPE_BYTE → i + 1 < (escapeBytes l).length := by
  induction l with
  | nil =>
      intro i h
      exfalso
      have hnil : escapeBytes [] = [] := rfl
      rw [hnil] at h
      rw [List.getD_eq_getElem?_getD] at h
      simp at h
      exact absurd h (by decide)
  | cons b t ih =>
      unfold escapeBytes
      split
      · rename_i hb
        intro i h
        match i with
        | 0 =>
            simp only [List.length_cons]
            omega
        | 1 =>
            exfalso
            rw [List.getD_cons_succ, List.getD_cons_zero] at h
            rcases hb with hb | hb <;> rw [hb] at h <;> exact absurd h (by decide)
        | (n + 2) =>
            rw [List.getD_cons_succ, List.getD_cons_succ] at h
            have := ih n h
            simp only [List.length_cons]
            omega
      · rename_i hb
        intro i h
        match i with
        | 0 =>
            exfalso
            rw [List.getD_cons_zero] at h
            exact hb (Or.inr h)
        | (n + 1) =>
            rw [List.getD_cons_succ] at h
            have := ih n h
            simp only [List.length_cons]
            omega

theorem unescapeBytes_esc_cons (c : Nat) (rest : List Nat) :
    unescapeBytes (ESCAPE_BYTE :: c :: rest) = (c ^^^ 0xFF) :: unescapeBytes rest := rfl

theorem unescapeBytes_cons_of_ne (b : Nat) (rest : List Nat) (h : b ≠ ESCAPE_BYTE) :
    unescapeBytes (b :: rest) = b :: unescapeBytes rest := by
  cases rest with
  | nil =>
      show (if b = ESCAPE_BYTE then ([] : List Nat) else [b]) = [b]
      rw [if_neg h]
  | cons c r2 =>
      show (if b = ESCAPE_BYTE then (c ^^^ 0xFF) :: unescapeBytes r2
        else b :: unescapeBytes (c :: r2)) = b :: unescapeBytes (c :: r2)
      rw [if_neg h]

theorem unescapeBytes_escapeBytes (l : List Nat) :
    unescapeBytes (escapeBytes l) = l := by
  induction l with
  | nil => rfl
  | cons b t ih =>
      unfold escapeBytes
      split
      · rename_i hb
        rw [unescapeBytes_esc_cons, ih, Nat.xor_assoc, Nat.xor_self, Nat.xor_zero]
      · rename_i hb
        have hne : b ≠ ESCAPE_BYTE := fun hcon => hb (Or.inr hcon)
        rw [unescapeBytes_cons_of_ne _ _ hne, ih]

theorem escapeBytes_length_le (l : List Nat) :
    (escapeBytes l).length ≤ 2 * l.length := by
  induction l with
  | nil => simp [show escapeBytes [] = [] from rfl]
  | cons b t ih =>
      rw [escapeBytes_cons]
      split <;> simp only [List.length_cons] <;> omega

theorem stripFraming_wrap (m : List Nat) :
    stripFraming (FRAME_DELIMITER_BYTE :: m ++ [FRAME_DELIMITER_BYTE]) = m := by
  unfold stripFraming
  rw [List.drop_one]
  show (m ++ [FRAME_DELIMITER_BYTE]).dropLast = m
  exact List.dropLast_concat

/-! ## Header pack/unpack lemmas -/

theorem and_one_shiftLeft_ne_zero_iff (x k : Nat) :
    x &&& (1 <<< k) ≠ 0 ↔ x.testBit k = true := by
  rw [Nat.one_shiftLeft, Nat.and_two_pow]
  cases h : x.testBit k <;> simp [h]

theorem parseFields_pack (p s d w h t x : Nat) (tail : List Nat)
    (hp : p < 2 ^ 8) (hs : s < 2 ^ 16) (hd : d < 2 ^ 16) (hw : w < 2 ^ 16)
    (hh : h < 2 ^ 64) (ht : t < 2 ^ 64) (hx : x < 2 ^ 32) :
    parseFields (leBytes 1 0 ++ (leBytes 1 p ++ (leBytes 2 s ++ (leBytes 2 d ++
      (leBytes 2 w ++ (leBytes 8 h ++ (leBytes 8 t ++ (leBytes 4 x ++ tail)))))))) =
    { version := 0, intPriority := p, srcNid := s, dstNid := d,
      intDataSpec := w, dtHash := h, transferId := t, indexEot := x } := by
  unfold parseFields
  rw [List.take_left' (leBytes_length 1 0), List.drop_left' (leBytes_length 1 0),
    List.take_left' (leBytes_length 1 p), List.drop_left' (leBytes_length 1 p),
    List.take_left' (leBytes_length 2 s), List.drop_left' (leBytes_length 2 s),
    List.take_left' (leBytes_length 2 d), List.drop_left' (leBytes_length 2 d),
    List.take_left' (leBytes_length 2 w), List.drop_left' (leBytes_length 2 w),
    List.take_left' (leBytes_length 8 h), List.drop_left' (leBytes_length 8 h),
    List.take_left' (leBytes_length 8 t), List.drop_left' (leBytes_length 8 t),
    List.take_left' (leBytes_length 4 x)]
  rw [desLE_leBytes 1 0 (by norm_num), desLE_leBytes 1 p (by simpa using hp),
    desLE_leBytes 2 s (by simpa using hs), desLE_leBytes 2 d (by simpa using hd),
    desLE_leBytes 2 w (by simpa using hw), desLE_leBytes 8 h (by simpa using hh),
    desLE_leBytes 8 t (by simpa using ht), desLE_leBytes 4 x (by simpa using hx)]

theorem dataSpecWire_lt {ds : DataSpecifier} (h : ds.valid) : dataSpecWire ds < 2 ^ 16 := by
  cases ds with
  | message sid =>
      unfold DataSpecifier.valid at h
      unfold dataSpecWire
      norm_num at h ⊢
      omega
  | service sid r =>
      unfold DataSpecifier.valid at h
      unfold dataSpecWire
      apply Nat.or_lt_two_pow
      · apply Nat.or_lt_two_pow
        · decide
        · split <;> decide
      · norm_num at h ⊢
        omega

theorem messageWire_bit15 {sid : Nat} (h : sid ≤ 2 ^ 13 - 1) : sid &&& (1 <<< 15) = 0 := by
  rw [Nat.one_shiftLeft, Nat.and_two_pow]
  have hbit : sid.testBit 15 = false := by
    apply Nat.testBit_lt_two_pow
    norm_num at h ⊢
    omega
  rw [hbit]
  simp

theorem serviceWire_bit15 {sid : Nat} (r : Bool) :
    ((1 <<< 15) ||| (if r then 1 <<< 14 else 0) ||| sid) &&& (1 <<< 15) ≠ 0 := by
  rw [and_one_shiftLeft_ne_zero_iff, Nat.testBit_lor, Nat.testBit_lor]
  have hb : Nat.testBit (1 <<< 15) 15 = true := by decide
  rw [hb]
  simp

set_option maxRecDepth 8192 in
theorem serviceWire_bit14_low : ∀ sid < 512, ∀ r : Bool,
    (((1 <<< 15) ||| (if r then 1 <<< 14 else 0) ||| sid) &&& (1 <<< 14) ≠ 0 ↔ r = true) ∧
    ((1 <<< 15) ||| (if r then 1 <<< 14 else 0) ||| sid) &&& SERVICE_ID_MASK = sid := by
  decide

theorem indexEot_and_mask {idx : Nat} (eot : Bool) (h : idx ≤ 2 ^ 31 - 1) :
    (idx ||| (if eot then 1 <<< 31 else 0)) &&& INDEX_MASK = idx := by
  have hlt : idx < 2 ^ 31 := by norm_num at h ⊢; omega
  have hmask : INDEX_MASK = 2 ^ 31 - 1 := rfl
  cases eot with
  | false =>
      rw [if_neg (show ¬ (false = true) by decide), Nat.or_zero, hmask,
        Nat.and_pow_two_sub_one_eq_mod]
      exact Nat.mod_eq_of_lt hlt
  | true =>
      rw [if_pos rfl, Nat.one_shiftLeft]
      apply Nat.eq_of_testBit_eq
      intro i
      rw [hmask, Nat.testBit_land, Nat.testBit_two_pow_sub_one, Nat.testBit_lor,
        Nat.testBit_two_pow]
      by_cases hi : i < 31
      · rw [decide_eq_false (show ¬ (31 = i) by omega), decide_eq_true hi]
        simp
      · rw [decide_eq_false hi]
        have hbit : idx.testBit i = false := by
          apply Nat.testBit_lt_two_pow
          calc idx < 2 ^ 31 := hlt
            _ ≤ 2 ^ i := Nat.pow_le_pow_right (by norm_num) (by omega)
        rw [hbit]
        simp

theorem indexEot_bit31 {idx : Nat} (eot : Bool) (h : idx ≤ 2 ^ 31 - 1) :
    ((idx ||| (if eot then 1 <<< 31 else 0)) &&& (1 <<< 31) ≠ 0) ↔ eot = true := by
  have hlt : idx < 2 ^ 31 := by norm_num at h ⊢; omega
  have hbit : idx.testBit 31 = false := Nat.testBit_lt_two_pow hlt
  rw [and_one_shiftLeft_ne_zero_iff, Nat.testBit_lor]
  cases eot with
  | false => simp [hbit, Nat.zero_testBit]
  | true =>
      simp [hbit]
      decide

theorem indexEot_lt {idx : Nat} (eot : Bool) (h : idx ≤ 2 ^ 31 - 1) :
    (idx ||| (if eot then 1 <<< 31 else 0)) < 2 ^ 32 := by
  have hlt : idx < 2 ^ 32 := by norm_num at h ⊢; omega
  apply Nat.or_lt_two_pow hlt
  cases eot with
  | false => simp
  | true =>
      rw [if_pos rfl]
      decide

/-! ## Frame image structure lemmas -/

theorem headerWithoutCrc_length (f : SerialFrame) : (headerWithoutCrc f).length = 28 := by
  simp [headerWithoutCrc, List.length_append, leBytes_length]

theorem headerWithoutCrc_bytes_lt (f : SerialFrame) :
    ∀ b ∈ headerWithoutCrc f, b < 256 := by
  intro b hb
  simp only [headerWithoutCrc, List.mem_append] at hb
  rcases hb with ((((((h | h) | h) | h) | h) | h) | h) | h <;>
    exact leBytes_bytes_lt _ _ _ h

theorem crcValueAsBytes_length (data : List Nat) : (crcValueAsBytes data).length = 4 :=
  leBytes_length 4 _

theorem crcValueAsBytes_bytes_lt (data : List Nat) :
    ∀ b ∈ crcValueAsBytes data, b < 256 := leBytes_bytes_lt 4 _

theorem headerBytes_length (f : SerialFrame) : (headerBytes f).length = 32 := by
  simp [headerBytes, List.length_append, headerWithoutCrc_length, crcValueAsBytes_length]

theorem headerBytes_bytes_lt (f : SerialFrame) : ∀ b ∈ headerBytes f, b < 256 := by
  intro b hb
  simp only [headerBytes, List.mem_append] at hb
  rcases hb with h | h
  · exact headerWithoutCrc_bytes_lt f b h
  · exact crcValueAsBytes_bytes_lt _ b h

theorem frameImage_length (f : SerialFrame) :
    (frameImage f).length = 36 + f.payload.length := by
  simp [frameImage, List.length_append, headerBytes_length, crcValueAsBytes_length]
  omega

theorem frameImage_bytes_lt (f : SerialFrame) (hp : ∀ b ∈ f.payload, b < 256) :
    ∀ b ∈ frameImage f, b < 256 := by
  intro b hb
  simp only [frameImage, List.mem_append] at hb
  rcases hb with (h | h) | h
  · exact headerBytes_bytes_lt f b h
  · exact hp b h
  · exact crcValueAsBytes_bytes_lt _ b h

theorem frameImage_take_32 (f : SerialFrame) : (frameImage f).take 32 = headerBytes f := by
  unfold frameImage
  rw [List.append_assoc]
  exact List.take_left' (headerBytes_length f)

theorem frameImage_drop_32 (f : SerialFrame) :
    (frameImage f).drop 32 = f.payload ++ crcValueAsBytes f.payload := by
  unfold frameImage
  rw [List.append_assoc]
  exact List.drop_left' (headerBytes_length f)

theorem nodeIdWire_lt (o : Option Nat) (h : ∀ s ∈ o, s ≤ NODE_ID_MASK) :
    nodeIdWire o < 2 ^ 16 := by
  cases o with
  | none => decide
  | some s =>
      have hs := h s rfl
      have hw : nodeIdWire (some s) = s := rfl
      rw [hw]
      unfold NODE_ID_MASK at hs
      omega

theorem nodeIdWire_decode (o : Option Nat) (h : ∀ s ∈ o, s ≤ NODE_ID_MASK) :
    (if nodeIdWire o = ANONYMOUS_NODE_ID then none else some (nodeIdWire o)) = o := by
  cases o with
  | none => rfl
  | some s =>
      have hs := h s rfl
      have hw : nodeIdWire (some s) = s := rfl
      rw [hw]
      unfold NODE_ID_MASK at hs
      rw [if_neg (by unfold ANONYMOUS_NODE_ID; omega)]

/-! ## Constructor success lemma -/

theorem nodeIdOk_ofNat (o : Option Nat) (h : ∀ s ∈ o, s ≤ NODE_ID_MASK) :
    nodeIdOk (o.map Int.ofNat) = true := by
  cases o with
  | none => rfl
  | some s =>
      have hs := h s rfl
      show nodeIdOk (some (Int.ofNat s)) = true
      unfold nodeIdOk
      apply decide_eq_true
      refine ⟨Int.ofNat_nonneg s, ?_⟩
      rw [Int.ofNat_eq_natCast]
      exact_mod_cast hs

theorem mkSerialFrame_ok (ts pri : Nat) (src dst : Option Nat) (ds : DataSpecifier)
    (dth tid idx : Nat) (eot : Bool) (pl : List Nat)
    (hsrc : ∀ s ∈ src, s ≤ NODE_ID_MASK) (hdst : ∀ d ∈ dst, d ≤ NODE_ID_MASK)
    (hsvc : ds.isService = true → src ≠ none)
    (hdth : dth ≤ DATA_TYPE_HASH_MASK) (htid : tid ≤ TRANSFER_ID_MASK)
    (hidx : idx ≤ INDEX_MASK) :
    mkSerialFrame ts pri (src.map Int.ofNat) (dst.map Int.ofNat) ds
      (Int.ofNat dth) (Int.ofNat tid) (Int.ofNat idx) eot pl =
      .ok { timestamp := ts, priority := pri, transfer_id := tid, index := idx,
            end_of_transfer := eot, payload := pl, source_node_id := src,
            destination_node_id := dst, data_specifier := ds,
            data_type_hash := dth } := by
  unfold mkSerialFrame
  rw [if_neg (not_not_intro (nodeIdOk_ofNat src hsrc)),
    if_neg (not_not_intro (nodeIdOk_ofNat dst hdst))]
  rw [if_neg (show ¬ (ds.isService = true ∧ src.map Int.ofNat = none) by
    rintro ⟨h1, h2⟩
    cases src with
    | none => exact (hsvc h1) rfl
    | some s => simp at h2)]
  rw [if_neg (not_not_intro ⟨Int.ofNat_nonneg dth,
      by rw [Int.ofNat_eq_natCast]; exact_mod_cast hdth⟩),
    if_neg (not_not_intro ⟨Int.ofNat_nonneg tid,
      by rw [Int.ofNat_eq_natCast]; exact_mod_cast htid⟩),
    if_neg (not_not_intro ⟨Int.ofNat_nonneg idx,
      by rw [Int.ofNat_eq_natCast]; exact_mod_cast hidx⟩)]
  simp only [Except.ok.injEq, SerialFrame.mk.injEq, Int.toNat_ofNat, Option.map_map]
  cases src <;> cases dst <;> simp [Int.toNat_ofNat]

theorem decodeNid_nodeIdWire (o : Option Nat) (h : ∀ s ∈ o, s ≤ NODE_ID_MASK) :
    decodeNid (nodeIdWire o) = o := by
  unfold decodeNid
  exact nodeIdWire_decode o h

/-- Parsing the unescaped image produced by `compile_into` recovers the frame
(with the parser's timestamp argument in place of the original). -/
theorem parse_frameImage (f : SerialFrame) (ts : Nat) (hok : frameOk f) :
    SerialFrame.parseFromUnescapedImage (frameImage f) ts =
      .ok (some { f with timestamp := ts }) := by
  obtain ⟨ts0, pri, tid, idx, eot, pl, src, dst, ds, dth⟩ := f
  obtain ⟨hpri, hsrc, hdst, hsvc, hdsv, hhash, htid, hidx, hpl⟩ := hok
  set f : SerialFrame :=
    { timestamp := ts0, priority := pri, transfer_id := tid, index := idx,
      end_of_transfer := eot, payload := pl, source_node_id := src,
      destination_node_id := dst, data_specifier := ds, data_type_hash := dth }
    with hf
  have hpri : pri < 8 := hpri
  have hsrc : ∀ s ∈ src, s ≤ NODE_ID_MASK := hsrc
  have hdst : ∀ d ∈ dst, d ≤ NODE_ID_MASK := hdst
  have hsvc : ds.isService = true → src ≠ none := hsvc
  have hdsv : ds.valid := hdsv
  have hhash : dth ≤ DATA_TYPE_HASH_MASK := hhash
  have htid : tid ≤ TRANSFER_ID_MASK := htid
  have hidx : idx ≤ INDEX_MASK := hidx
  have hpl : ∀ b ∈ pl, b < 256 := hpl
  have hidx31 : idx ≤ 2 ^ 31 - 1 := hidx
  have hlen36 : ¬ ((frameImage f).length < 36) := by
    rw [frameImage_length]
    omega
  have hres1 : crcCheckResidue ((frameImage f).take 32) = true := by
    rw [frameImage_take_32]
    unfold headerBytes
    exact crcCheckResidue_append _ (headerWithoutCrc_bytes_lt f)
  have hres2 : crcCheckResidue ((frameImage f).drop 32) = true := by
    rw [frameImage_drop_32]
    exact crcCheckResidue_append _ hpl
  have hpayl : ((frameImage f).drop 32).take (((frameImage f).drop 32).length - 4)
      = pl := by
    rw [frameImage_drop_32]
    have hl : (f.payload ++ crcValueAsBytes f.payload).length - 4 = pl.length := by
      simp [List.length_append, crcValueAsBytes_length, hf]
    rw [hl]
    exact List.take_left' rfl
  have hfields : parseFields ((frameImage f).take 32) =
      { version := 0, intPriority := pri,
        srcNid := nodeIdWire src, dstNid := nodeIdWire dst,
        intDataSpec := dataSpecWire ds, dtHash := dth, transferId := tid,
        indexEot := idx ||| (if eot then 1 <<< 31 else 0) } := by
    rw [frameImage_take_32]
    unfold headerBytes headerWithoutCrc indexEotWire
    simp only [List.append_assoc, hf]
    exact parseFields_pack pri (nodeIdWire src) (nodeIdWire dst) (dataSpecWire ds)
      dth tid (idx ||| (if eot then 1 <<< 31 else 0)) _
      (by norm_num; omega)
      (nodeIdWire_lt _ hsrc) (nodeIdWire_lt _ hdst) (dataSpecWire_lt hdsv)
      (by unfold DATA_TYPE_HASH_MASK at hhash; norm_num at hhash ⊢; omega)
      (by unfold TRANSFER_ID_MASK at htid; norm_num at htid ⊢; omega)
      (indexEot_lt eot hidx31)
  have hmasked : (idx ||| (if eot then 1 <<< 31 else 0)) &&& INDEX_MASK = idx :=
    indexEot_and_mask eot hidx31
  have heot : decide ((idx ||| (if eot then 1 <<< 31 else 0)) &&& (1 <<< 31) ≠ 0)
      = eot := by
    have hiff := indexEot_bit31 eot hidx31
    cases eot with
    | true => exact decide_eq_true (hiff.mpr rfl)
    | false =>
        apply decide_eq_false
        intro hP
        exact absurd (hiff.mp hP) (by simp)
  have hsrcdec : decodeNid (nodeIdWire src) = src := decodeNid_nodeIdWire src hsrc
  have hdstdec : decodeNid (nodeIdWire dst) = dst := decodeNid_nodeIdWire dst hdst
  unfold SerialFrame.parseFromUnescapedImage
  rw [if_neg hlen36, if_neg (not_not_intro hres1), if_neg (not_not_intro hres2),
    hfields, hpayl]
  cases ds with
  | message sid =>
      have hsid : sid ≤ 2 ^ 13 - 1 := hdsv
      have hw : dataSpecWire (DataSpecifier.message sid) = sid := rfl
      rw [hw]
      rw [if_neg (not_not_intro rfl), if_pos (messageWire_bit15 hsid), if_pos hsid]
      unfold finishParse
      rw [hsrcdec, hdstdec]
      rw [if_pos (show pri < 8 from hpri)]
      rw [hmasked]
      rw [mkSerialFrame_ok ts pri src dst (.message sid) dth tid idx _ pl
        hsrc hdst (by intro hcon; exact absurd hcon (by simp [DataSpecifier.isService]))
        hhash htid hidx]
      rw [heot]
  | service sid r =>
      have hsid : sid ≤ 2 ^ 9 - 1 := hdsv
      have hsid512 : sid < 512 := by norm_num at hsid; omega
      have hw : dataSpecWire (DataSpecifier.service sid r) =
          (1 <<< 15) ||| (if r then 1 <<< 14 else 0) ||| sid := rfl
      rw [hw]
      rw [if_neg (not_not_intro rfl), if_neg (serviceWire_bit15 r)]
      have hlow := (serviceWire_bit14_low sid hsid512 r).2
      have hbit14 : decide (((1 <<< 15) ||| (if r then 1 <<< 14 else 0) ||| sid)
          &&& (1 <<< 14) ≠ 0) = r := by
        have hiff := (serviceWire_bit14_low sid hsid512 r).1
        cases r with
        | true => exact decide_eq_true (hiff.mpr rfl)
        | false =>
            apply decide_eq_false
            intro hP
            exact absurd (hiff.mp hP) (by simp)
      rw [hlow, hbit14]
      unfold finishParse
      rw [hsrcdec, hdstdec]
      rw [if_pos (show pri < 8 from hpri)]
      rw [hmasked]
      rw [mkSerialFrame_ok ts pri src dst (.service sid r) dth tid idx _ pl
        hsrc hdst (fun _ => hsvc rfl) hhash htid hidx]
      rw [heot]

/-! ## Claim theorems: codec -/

theorem getD_mem_of_lt {l : List Nat} {n : Nat} (h : n < l.length) : l.getD n 0 ∈ l := by
  rw [List.getD_eq_getElem?_getD, List.getElem?_eq_getElem h]
  exact List.getElem_mem h

/-- Claim C1: for every valid SerialFrame and sufficiently large buffer,
stripping the delimiters and unescaping the output of `compile_into`, then
applying `parse_from_unescaped_image`, returns a frame equal to the original
in every field, with the reception timestamp replaced by the parser's
timestamp argument. -/
theorem serial_codec_roundtrip (f : SerialFrame) (ts : Nat) (hok : frameOk f) :
    SerialFrame.parseFromUnescapedImage
      (unescapeBytes (stripFraming f.compileBytes)) ts =
      .ok (some { f with timestamp := ts }) := by
  unfold SerialFrame.compileBytes
  rw [stripFraming_wrap, unescapeBytes_escapeBytes]
  exact parse_frameImage f ts hok

/-- A concrete frame used by the witnesses (escape-worthy bytes in the
payload, service data specifier, anonymous destination). -/
def witnessFrame : SerialFrame :=
  { timestamp := 0, priority := 1, transfer_id := 5, index := 3,
    end_of_transfer := true, payload := [0x9E, 0x8E, 0x41],
    source_node_id := some 7, destination_node_id := none,
    data_specifier := .service 16 true, data_type_hash := 0xDEAD }

theorem serial_codec_roundtrip_witness :
    frameOk witnessFrame ∧
    SerialFrame.parseFromUnescapedImage
      (unescapeBytes (stripFraming witnessFrame.compileBytes)) 42 =
      .ok (some { witnessFrame with timestamp := 42 }) :=
  ⟨by decide, serial_codec_roundtrip witnessFrame 42 (by decide)⟩

/-- Claim C2: the compiled frame begins and ends with the delimiter 0x9E; no
0x9E occurs strictly between the delimiters; every 0x8E strictly between them
is an escape prefix followed by another in-frame byte; and the bytes between
the delimiters are exactly the per-byte escape substitution of the unescaped
image (0x9E and 0x8E replaced by the pair 0x8E, b XOR 0xFF; no other byte
altered). -/
theorem serial_framing_properties (f : SerialFrame) (hok : frameOk f) :
    f.compileBytes.head? = some FRAME_DELIMITER_BYTE ∧
    f.compileBytes.getLast? = some FRAME_DELIMITER_BYTE ∧
    (∀ i, 0 < i → i + 1 < f.compileBytes.length →
      f.compileBytes.getD i 0 ≠ FRAME_DELIMITER_BYTE) ∧
    (∀ i, 0 < i → i + 1 < f.compileBytes.length →
      f.compileBytes.getD i 0 = ESCAPE_BYTE → i + 2 < f.compileBytes.length) ∧
    f.compileBytes =
      FRAME_DELIMITER_BYTE :: (frameImage f).flatMap escByte ++ [FRAME_DELIMITER_BYTE] := by
  unfold SerialFrame.compileBytes
  refine ⟨List.head?_cons, List.getLast?_concat _, ?_, ?_, ?_⟩
  · intro i hi hilen
    simp only [List.length_cons, List.length_append, List.length_nil] at hilen
    obtain ⟨n, rfl⟩ : ∃ n, i = n + 1 := ⟨i - 1, by omega⟩
    rw [List.getD_append _ _ _ (n + 1) (by simp only [List.length_cons]; omega),
      List.getD_cons_succ]
    exact escapeBytes_no_delim (frameImage f) _ (getD_mem_of_lt (by omega))
  · intro i hi hilen hesc
    simp only [List.length_cons, List.length_append, List.length_nil] at hilen ⊢
    obtain ⟨n, rfl⟩ : ∃ n, i = n + 1 := ⟨i - 1, by omega⟩
    rw [List.getD_append _ _ _ (n + 1) (by simp only [List.length_cons]; omega),
      List.getD_cons_succ] at hesc
    have := escapeBytes_esc_not_last (frameImage f) n hesc
    omega
  · rw [escapeBytes_eq_flatMap]

theorem serial_framing_properties_witness :
    frameOk witnessFrame ∧
    witnessFrame.compileBytes.head? = some FRAME_DELIMITER_BYTE ∧
    witnessFrame.compileBytes.getLast? = some FRAME_DELIMITER_BYTE :=
  ⟨by decide, (serial_framing_properties witnessFrame (by decide)).1,
    (serial_framing_properties witnessFrame (by decide)).2.1⟩

/-- Claim C9: after the send path's growth rule (grow the scratch buffer,
initially 1024 bytes, to `3 * len(payload)` whenever smaller), the buffer
always accommodates the compiled frame, whose worst-case size is
`2 + 2 * (32 + len(payload) + 4)`; hence `compile_into` never indexes past
the end of the buffer. -/
theorem serial_buffer_growth_sufficient (f : SerialFrame) (L : Nat) (hL : 1024 ≤ L) :
    f.compileBytes.length ≤ grownBufferLength L f.payload.length ∧
    f.compileBytes.length ≤ 2 + 2 * (32 + f.payload.length + 4) := by
  have h1 : f.compileBytes.length ≤ 74 + 2 * f.payload.length := by
    unfold SerialFrame.compileBytes
    have he := escapeBytes_length_le (frameImage f)
    have hi : (frameImage f).length = 36 + f.payload.length := frameImage_length f
    simp only [List.length_cons, List.length_append, List.length_nil]
    omega
  constructor
  · unfold grownBufferLength
    split <;> omega
  · omega

theorem serial_buffer_growth_sufficient_witness :
    (1024 ≤ 1024) ∧
    witnessFrame.compileBytes.length ≤ grownBufferLength 1024 witnessFrame.payload.length :=
  ⟨by decide, (serial_buffer_growth_sufficient witnessFrame 1024 (by decide)).1⟩

/-! ## Claim C4: single-bit corruption -/

theorem flipPattern_take_of_lt {L j n : Nat} (i : Nat) (hj : j < n) (hn : n ≤ L) :
    (flipPattern L j i).take n = flipPattern n j i := by
  unfold flipPattern
  rw [List.take_append_eq_append_take, List.take_replicate, List.length_replicate,
    min_eq_right (by omega : j ≤ n)]
  congr 1
  conv_lhs => rw [show n - j = (n - j - 1) + 1 from by omega]
  rw [List.take_succ_cons, List.take_replicate,
    min_eq_left (by omega : n - j - 1 ≤ L - j - 1)]

theorem flipPattern_take_of_le {L j : Nat} (i : Nat) {n : Nat} (hn : n ≤ j) :
    (flipPattern L j i).take n = List.replicate n 0 := by
  unfold flipPattern
  rw [List.take_append_eq_append_take, List.take_replicate, List.length_replicate,
    show n - j = 0 from by omega, min_eq_left hn]
  simp

theorem flipPattern_drop_of_lt {L j n : Nat} (i : Nat) (hj : j < n) (hn : n ≤ L) :
    (flipPattern L j i).drop n = List.replicate (L - n) 0 := by
  unfold flipPattern
  rw [List.drop_append_eq_append_drop, List.drop_replicate, List.length_replicate]
  have hz : j - n = 0 := by omega
  rw [hz]
  have hstep : n - j = (n - j - 1) + 1 := by omega
  rw [hstep, List.drop_succ_cons, List.drop_replicate]
  have : L - j - 1 - (n - j - 1) = L - n := by omega
  rw [this]
  simp

theorem flipPattern_drop_of_le {L j : Nat} (i : Nat) {n : Nat} (hn : n ≤ j) :
    (flipPattern L j i).drop n = flipPattern (L - n) (j - n) i := by
  unfold flipPattern
  rw [List.drop_append_eq_append_drop, List.drop_replicate, List.length_replicate]
  have hz : n - j = 0 := by omega
  rw [hz]
  simp only [List.drop_zero]
  have : L - j - 1 = L - n - (j - n) - 1 := by omega
  rw [this]

/-- Claim C4: for every unescaped image that decodes to a frame, flipping any
single bit in the 32-byte header or in the payload makes
`parse_from_unescaped_image` return None. -/
theorem serial_crc_bitflip_rejected (img : List Nat) (ts ts2 : Nat)
    (F : SerialFrame) (j i : Nat)
    (hparse : SerialFrame.parseFromUnescapedImage img ts = .ok (some F))
    (hj : j < img.length - 4) (hi : i < 8) :
    SerialFrame.parseFromUnescapedImage (flipBit img j i) ts2 = .ok none := by
  have hlen : ¬ (img.length < 36) := by
    intro hc
    unfold SerialFrame.parseFromUnescapedImage at hparse
    rw [if_pos hc] at hparse
    simp at hparse
  have hres1 : crcCheckResidue (img.take 32) = true := by
    by_contra hc
    unfold SerialFrame.parseFromUnescapedImage at hparse
    rw [if_neg hlen, if_pos hc] at hparse
    simp at hparse
  have hres2 : crcCheckResidue (img.drop 32) = true := by
    by_contra hc
    unfold SerialFrame.parseFromUnescapedImage at hparse
    rw [if_neg hlen, if_neg (not_not_intro hres1), if_pos hc] at hparse
    simp at hparse
  have hjlen : j < img.length := by omega
  have htklen : (img.take 32).length = 32 := by
    rw [List.length_take]
    omega
  have hdplen : (img.drop 32).length = img.length - 32 := List.length_drop 32 img
  have hlen' : (flipBit img j i).length = img.length := List.length_set img j _
  have hlen36' : ¬ ((flipBit img j i).length < 36) := by rw [hlen']; exact hlen
  rw [flipBit_as_zipWith img j i hjlen]
  by_cases hj32 : j < 32
  · -- corruption inside the 32-byte header
    have htk : (List.zipWith (· ^^^ ·) img (flipPattern img.length j i)).take 32 =
        List.zipWith (· ^^^ ·) (img.take 32) (flipPattern 32 j i) := by
      rw [List.take_zipWith, flipPattern_take_of_lt i hj32 (by omega)]
    have hfail : crcCheckResidue
        ((List.zipWith (· ^^^ ·) img (flipPattern img.length j i)).take 32) = false := by
      rw [htk]
      have := crcCheckResidue_zip_flip (l := img.take 32) (j := j) (i := i)
        (by omega) hi hres1
      rwa [htklen] at this
    unfold SerialFrame.parseFromUnescapedImage
    rw [if_neg (by rw [← flipBit_as_zipWith img j i hjlen]; exact hlen36'),
      if_pos (by rw [hfail]; exact Bool.false_ne_true)]
  · -- corruption inside the payload
    have htk : (List.zipWith (· ^^^ ·) img (flipPattern img.length j i)).take 32 =
        img.take 32 := by
      rw [List.take_zipWith, flipPattern_take_of_le i (by omega)]
      have hz := zipWith_xor_replicate_zero (img.take 32)
      rw [htklen] at hz
      exact hz
    have hdp : (List.zipWith (· ^^^ ·) img (flipPattern img.length j i)).drop 32 =
        List.zipWith (· ^^^ ·) (img.drop 32) (flipPattern (img.length - 32) (j - 32) i) := by
      rw [List.drop_zipWith, flipPattern_drop_of_le i (by omega)]
    have hfail : crcCheckResidue
        ((List.zipWith (· ^^^ ·) img (flipPattern img.length j i)).drop 32) = false := by
      rw [hdp]
      have := crcCheckResidue_zip_flip (l := img.drop 32) (j := j - 32) (i := i)
        (by omega) hi hres2
      rwa [hdplen] at this
    unfold SerialFrame.parseFromUnescapedImage
    rw [if_neg (by rw [← flipBit_as_zipWith img j i hjlen]; exact hlen36'),
      if_neg (by rw [htk]; exact not_not_intro hres1),
      if_pos (by rw [hfail]; exact Bool.false_ne_true)]

theorem serial_crc_bitflip_rejected_witness :
    SerialFrame.parseFromUnescapedImage (frameImage witnessFrame) 9 =
      .ok (some { witnessFrame with timestamp := 9 }) ∧
    (0 : Nat) < (frameImage witnessFrame).length - 4 ∧
    SerialFrame.parseFromUnescapedImage (flipBit (frameImage witnessFrame) 0 0) 9 =
      .ok none := by
  refine ⟨?_, by decide, ?_⟩
  · exact parse_frameImage witnessFrame 9 (by decide)
  · exact serial_crc_bitflip_rejected (frameImage witnessFrame) 9 9
      { witnessFrame with timestamp := 9 } 0 0
      (parse_frameImage witnessFrame 9 (by decide)) (by decide) (by decide)

/-! ## Claim C3: the decode path can raise -/

/-- A 28-byte packed header whose data-specifier word is `0x2000`: bit 15 is
clear (Message case) but the subject id `8192` exceeds the 13-bit range. -/
def badSpecHeader : List Nat :=
  leBytes 1 0 ++ (leBytes 1 0 ++ (leBytes 2 0xFFFF ++ (leBytes 2 0xFFFF ++
    (leBytes 2 0x2000 ++ (leBytes 8 0 ++ (leBytes 8 0 ++ leBytes 4 0))))))

/-- A full 36-byte unescaped image around `badSpecHeader`: both CRC-32C
residue checks pass, the version is 0, yet the image does not decode. -/
def badSpecImage : List Nat :=
  (badSpecHeader ++ crcValueAsBytes badSpecHeader) ++ crcValueAsBytes []

set_option maxRecDepth 100000 in
/-- Claim C3 (refuting evaluation): on an image whose header carries the
data-specifier word `0x2000` with valid CRCs, `parse_from_unescaped_image`
raises `ValueError` (from the spec-modelled 13-bit `MessageDataSpecifier`
constructor invoked OUTSIDE the `try` block) instead of returning None. -/
theorem serial_parse_raises_on_reserved_subject :
    SerialFrame.parseFromUnescapedImage badSpecImage 0 = .error .valueError ∧
    crcCheckResidue (badSpecImage.take 32) = true ∧
    crcCheckResidue (badSpecImage.drop 32) = true := by decide

/-! ## Claim C5: constructor invariants -/

theorem nodeIdOk_iff (o : Option Int) :
    nodeIdOk o = true ↔ ∀ s ∈ o, 0 ≤ s ∧ s ≤ 4095 := by
  cases o with
  | none => simp [nodeIdOk]
  | some s => simp [nodeIdOk, NODE_ID_MASK]

/-- Claim C5: `SerialFrame` construction succeeds exactly when the node-ID
ranges, the service-with-source rule, and the hash / transfer-id / index
ranges all hold. -/
theorem serial_frame_invariants (ts pri : Nat) (src dst : Option Int)
    (ds : DataSpecifier) (dth tid idx : Int) (eot : Bool) (pl : List Nat) :
    (∃ fr, mkSerialFrame ts pri src dst ds dth tid idx eot pl = .ok fr) ↔
    ((∀ s ∈ src, 0 ≤ s ∧ s ≤ 4095) ∧ (∀ d ∈ dst, 0 ≤ d ∧ d ≤ 4095) ∧
     (ds.isService = true → src ≠ none) ∧
     (0 ≤ dth ∧ dth < 2 ^ 64) ∧ (0 ≤ tid ∧ tid < 2 ^ 64) ∧
     (0 ≤ idx ∧ idx < 2 ^ 31)) := by
  have hmh : (DATA_TYPE_HASH_MASK : Int) = 2 ^ 64 - 1 := by norm_num [DATA_TYPE_HASH_MASK]
  have hmt : (TRANSFER_ID_MASK : Int) = 2 ^ 64 - 1 := by norm_num [TRANSFER_ID_MASK]
  have hmi : (INDEX_MASK : Int) = 2 ^ 31 - 1 := by norm_num [INDEX_MASK]
  unfold mkSerialFrame
  constructor
  · rintro ⟨fr, hfr⟩
    split_ifs at hfr with h1 h2 h3 h4 h5 h6 <;> try simp at hfr
    refine ⟨(nodeIdOk_iff src).mp h1, (nodeIdOk_iff dst).mp h2,
      fun hs hn => h3 ⟨hs, hn⟩, ?_, ?_, ?_⟩
    · rw [hmh] at h4
      omega
    · rw [hmt] at h5
      omega
    · rw [hmi] at h6
      omega
  · rintro ⟨c1, c2, c3, c4, c5, c6⟩
    rw [if_neg (not_not_intro ((nodeIdOk_iff src).mpr c1)),
      if_neg (not_not_intro ((nodeIdOk_iff dst).mpr c2)),
      if_neg (show ¬ (ds.isService = true ∧ src = none) from
        fun ⟨hs, hn⟩ => c3 hs hn),
      if_neg (not_not_intro (by rw [hmh]; omega)),
      if_neg (not_not_intro (by rw [hmt]; omega)),
      if_neg (not_not_intro (by rw [hmi]; omega))]
    exact ⟨_, rfl⟩

theorem serial_frame_invariants_witness :
    ∃ fr, mkSerialFrame 0 1 (some 7) none (.message 5) 1 2 3 false [] = .ok fr :=
  (serial_frame_invariants 0 1 (some 7) none (.message 5) 1 2 3 false []).mpr
    (by refine ⟨?_, ?_, ?_, ?_, ?_, ?_⟩ <;> simp <;> decide)

/-! ## Claims C6 and C10: receive routing -/

/-- Claim C6: a frame whose destination is the local node id or absent is
delivered exactly to the existing input sessions keyed by
`(data_specifier, source_node_id)` and `(data_specifier, absent)` (at most
two); a frame with any other destination is delivered to no session. -/
theorem serial_routing_exact (localNodeId : Option Nat) (st : EngineRxState)
    (f : SerialFrame) (sid : Nat) :
    (sid ∈ (handleReceivedFrame localNodeId st f).2 ↔
      ((f.destination_node_id = localNodeId ∨ f.destination_node_id = none) ∧
        (lookupKey st.registry (f.data_specifier, f.source_node_id) = some sid ∨
         lookupKey st.registry (f.data_specifier, none) = some sid))) ∧
    (handleReceivedFrame localNodeId st f).2.length ≤ 2 := by
  unfold handleReceivedFrame
  split
  · rename_i hacc
    constructor
    · rw [List.mem_filterMap]
      unfold sourceNodeSet
      cases hsrc : f.source_node_id with
      | none => simp [hacc, hsrc]
      | some s =>
          simp only [List.mem_cons, List.mem_singleton]
          constructor
          · rintro ⟨a, ha, hla⟩
            rcases ha with rfl | rfl | h
            · exact ⟨hacc, Or.inr hla⟩
            · exact ⟨hacc, Or.inl hla⟩
            · cases h
          · rintro ⟨-, hl | hl⟩
            · exact ⟨some s, Or.inr (Or.inl rfl), hl⟩
            · exact ⟨none, Or.inl rfl, hl⟩
    · calc ((sourceNodeSet f).filterMap
            (fun sn => lookupKey st.registry (f.data_specifier, sn))).length
          ≤ (sourceNodeSet f).length := List.length_filterMap_le _ _
        _ ≤ 2 := by unfold sourceNodeSet; cases f.source_node_id <;> simp
  · rename_i hacc
    constructor
    · simp only [List.not_mem_nil, false_iff]
      rintro ⟨hdst, -⟩
      exact hacc hdst
    · simp

/-- Concrete receive-side state and frame for the routing witness. -/
def routingState : EngineRxState :=
  { in_frames := 0, registry := [((.message 5, some 2), 7)] }

def routingFrame : SerialFrame :=
  { timestamp := 0, priority := 1, transfer_id := 5, index := 3,
    end_of_transfer := true, payload := [],
    source_node_id := some 2, destination_node_id := some 3,
    data_specifier := .message 5, data_type_hash := 1 }

theorem serial_routing_exact_witness :
    7 ∈ (handleReceivedFrame (some 3) routingState routingFrame).2 :=
  (serial_routing_exact (some 3) routingState routingFrame 7).1.mpr (by decide)

/-- Claim C10: every frame handled by `_handle_received_frame` increments
`in_frames` by exactly one, whether or not it is accepted for delivery. -/
theorem serial_in_frames_counts_received (localNodeId : Option Nat)
    (st : EngineRxState) (f : SerialFrame) :
    (handleReceivedFrame localNodeId st f).1.in_frames = st.in_frames + 1 := by
  unfold handleReceivedFrame
  split <;> rfl

/-! ## Claim C7: send-path accounting -/

/-- Bytes accounted by `out_bytes += num_written or 0` for one frame. -/
def envBytes (p : SerialFrame × FrameEnv) : Nat :=
  match p.2.outcome with
  | .timeoutExc => 0
  | .wrote n => n.getD 0

theorem sendLoop_preserves (d : Int) :
    ∀ (fps : List (SerialFrame × FrameEnv)) (st : TxStats) (ts : Option Nat),
    (sendLoop d fps st ts).1.out_transfers = st.out_transfers ∧
    (sendLoop d fps st ts).1.out_incomplete = st.out_incomplete := by
  intro fps
  induction fps with
  | nil => intro st ts; exact ⟨rfl, rfl⟩
  | cons p rest ih =>
      intro st ts
      obtain ⟨fr, now, tsn, outc⟩ := p
      cases outc with
      | timeoutExc =>
          simp only [sendLoop]
          split
          · exact ⟨rfl, rfl⟩
          · exact ⟨rfl, rfl⟩
      | wrote n =>
          simp only [sendLoop]
          split
          · split
            · exact ⟨rfl, rfl⟩
            · exact ih _ _
          · exact ⟨rfl, rfl⟩

theorem sendLoop_all_full (d : Int) :
    ∀ (fps : List (SerialFrame × FrameEnv)) (st : TxStats) (ts : Option Nat),
    (∀ p ∈ fps, fullWrite d p = true) →
    (sendLoop d fps st ts).1.out_bytes = st.out_bytes + (fps.map envBytes).sum ∧
    (sendLoop d fps st ts).1.out_frames = st.out_frames + fps.length ∧
    (sendLoop d fps st ts).2 = (match ts with
      | some t => some t
      | none => fps.head?.map (fun p => p.2.tsNow)) := by
  intro fps
  induction fps with
  | nil =>
      intro st ts h
      refine ⟨by simp [sendLoop], by simp [sendLoop], ?_⟩
      cases ts <;> rfl
  | cons p rest ih =>
      intro st ts h
      obtain ⟨fr, now, tsn, outc⟩ := p
      have hful := h _ (List.mem_cons_self _ _)
      unfold fullWrite at hful
      rw [Bool.and_eq_true] at hful
      have htime : d - now > 0 := of_decide_eq_true hful.1
      cases outc with
      | timeoutExc => simp at hful
      | wrote n =>
          have hlen : (fr.compileBytes.length ≤ n.getD fr.compileBytes.length) :=
            of_decide_eq_true hful.2
          have hnotshort : ¬ (n.getD fr.compileBytes.length < fr.compileBytes.length) := by
            omega
          simp only [sendLoop]
          rw [if_pos htime, if_neg hnotshort]
          have hrest := ih
            { st with
              out_bytes := st.out_bytes + n.getD 0
              out_frames := st.out_frames + 1 }
            (match ts with | some t => some t | none => some tsn)
            (fun q hq => h q (List.mem_cons_of_mem _ hq))
          refine ⟨?_, ?_, ?_⟩
          · rw [hrest.1]
            simp only [List.map_cons, List.sum_cons, envBytes]
            omega
          · rw [hrest.2.1]
            simp only [List.length_cons]
            omega
          · rw [hrest.2.2]
            cases ts <;> simp
  
theorem sendLoop_fail (d : Int) :
    ∀ (fps : List (SerialFrame × FrameEnv)) (st : TxStats) (ts : Option Nat),
    (∃ p ∈ fps, fullWrite d p = false) →
    (sendLoop d fps st ts).2 = none := by
  intro fps
  induction fps with
  | nil =>
      rintro st ts ⟨p, hp, -⟩
      cases hp
  | cons p rest ih =>
      rintro st ts ⟨q, hq, hfq⟩
      obtain ⟨fr, now, tsn, outc⟩ := p
      by_cases htime : d - now > 0
      · cases outc with
        | timeoutExc =>
            simp only [sendLoop]
            rw [if_pos htime]
        | wrote n =>
            by_cases hshort : n.getD fr.compileBytes.length < fr.compileBytes.length
            · simp only [sendLoop]
              rw [if_pos htime, if_pos hshort]
            · simp only [sendLoop]
              rw [if_pos htime, if_neg hshort]
              apply ih
              rcases List.mem_cons.mp hq with rfl | hmem
              · exfalso
                unfold fullWrite at hfq
                rw [Bool.and_eq_false_iff] at hfq
                rcases hfq with hfq | hfq
                · rw [decide_eq_false_iff_not] at hfq
                  exact hfq htime
                · simp only [decide_eq_false_iff_not] at hfq
                  exact hfq (by omega)
              · exact ⟨q, hmem, hfq⟩
      · simp only [sendLoop]
        rw [if_neg htime]

/-- Claim C7: `_send_transfer` returns the first frame's transmission
instant exactly when every frame's write completes fully before the
deadline; on success it accumulates `out_bytes` and `out_frames` over the
frames and increments `out_transfers`; on any timeout, short write, or
exhausted budget it returns no timestamp and increments `out_incomplete`. -/
theorem serial_send_transfer_accounting (d : Int)
    (fps : List (SerialFrame × FrameEnv)) (st : TxStats) :
    ((sendTransfer d fps st).2.isSome ↔
      (fps ≠ [] ∧ ∀ p ∈ fps, fullWrite d p = true)) ∧
    (∀ p rest, fps = p :: rest → (sendTransfer d fps st).2.isSome →
      (sendTransfer d fps st).2 = some p.2.tsNow) ∧
    ((sendTransfer d fps st).2.isSome →
      (sendTransfer d fps st).1.out_transfers = st.out_transfers + 1 ∧
      (sendTransfer d fps st).1.out_incomplete = st.out_incomplete ∧
      (sendTransfer d fps st).1.out_frames = st.out_frames + fps.length ∧
      (sendTransfer d fps st).1.out_bytes = st.out_bytes + (fps.map envBytes).sum) ∧
    ((sendTransfer d fps st).2 = none →
      (sendTransfer d fps st).1.out_incomplete = st.out_incomplete + 1 ∧
      (sendTransfer d fps st).1.out_transfers = st.out_transfers) := by
  by_cases hall : ∀ p ∈ fps, fullWrite d p = true
  · cases fps with
    | nil =>
        have hloop : sendLoop d [] st none = (st, none) := rfl
        unfold sendTransfer
        rw [hloop]
        simp
    | cons p rest =>
        have hfull3 := sendLoop_all_full d (p :: rest) st none hall
        have hpres := sendLoop_preserves d (p :: rest) st none
        have hts : (sendLoop d (p :: rest) st none).2 = some p.2.tsNow := by
          rw [hfull3.2.2]
          simp
        unfold sendTransfer
        rw [hts]
        simp only [Option.isSome_some, if_true]
        refine ⟨?_, ?_, ?_, ?_⟩
        · constructor
          · intro _h
            exact ⟨List.cons_ne_nil _ _, hall⟩
          · intro _h
            trivial
        · rintro q qrest heq _h
          rw [List.cons.injEq] at heq
          rw [heq.1]
        · intro _h
          exact ⟨by rw [hpres.1], by rw [hpres.2], by rw [hfull3.2.1], by rw [hfull3.1]⟩
        · intro hcon
          simp at hcon
  · have hex : ∃ q ∈ fps, fullWrite d q = false := by
      by_contra hnex
      push_neg at hnex
      apply hall
      intro p hp
      cases hfw : fullWrite d p
      · exact absurd hfw (hnex p hp)
      · rfl
    have hnone := sendLoop_fail d fps st none hex
    have hpres := sendLoop_preserves d fps st none
    unfold sendTransfer
    rw [hnone]
    simp only [Option.isSome_none, Bool.false_eq_true, if_false]
    refine ⟨?_, ?_, ?_, ?_⟩
    · simp only [Option.isSome_none, Bool.false_eq_true, false_iff]
      rintro ⟨-, hc⟩
      exact hall hc
    · rintro q qrest - hcon
      simp at hcon
    · intro hcon
      simp at hcon
    · intro _h
      exact ⟨by rw [hpres.2], by rw [hpres.1]⟩

def sendEnv0 : FrameEnv := { now := 0, tsNow := 77, outcome := .wrote none }

set_option maxRecDepth 100000 in
theorem serial_send_transfer_accounting_witness :
    (sendTransfer 10 [(witnessFrame, sendEnv0)] ⟨0, 0, 0, 0⟩).2 = some 77 := by
  have h := (serial_send_transfer_accounting 10 [(witnessFrame, sendEnv0)]
    ⟨0, 0, 0, 0⟩).2.1
  exact h (witnessFrame, sendEnv0) [] rfl
    ((serial_send_transfer_accounting 10 [(witnessFrame, sendEnv0)]
      ⟨0, 0, 0, 0⟩).1.mpr ⟨by decide, by decide⟩)

/-! ## Claim C8: engine lifecycle -/

/-- Concrete closed engine state for the lifecycle counterexample. -/
def closedEngine : EngineState := { closed := true, inputKeys := [], outputKeys := [] }

/-- Claim C8 (counterexample): on a closed engine, the public operation
`sample_statistics` succeeds (it performs no closed-state check), so the
claim that EVERY public operation fails with a resource-closed error after
closing is false. -/
theorem serial_closed_sample_statistics_ok :
    (engineStep closedEngine .sampleStatistics).2 = .ok ∧
    (engineStep closedEngine .sampleStatistics).2 ≠ .resourceClosedError := by decide

/-- Claim C8 (amended): the Closed state is terminal (no operation clears
the flag); once closed, `get_input_session`, `get_output_session` and
`_send_transfer` fail with ResourceClosedError; `close()` is idempotent and
does not fail; `sample_statistics` still succeeds. -/
theorem serial_closed_terminal (st : EngineState) (op : EngineOp)
    (h : st.closed = true) :
    (engineStep st op).1.closed = true ∧
    (((∃ k, op = .getInputSession k) ∨ (∃ k, op = .getOutputSession k) ∨
        op = .sendTransferOp) →
      (engineStep st op).2 = .resourceClosedError) ∧
    (op = .close → (engineStep st op).2 = .ok ∧ (engineStep st op).1 = st) ∧
    (op = .sampleStatistics → (engineStep st op).2 = .ok) := by
  cases op with
  | close =>
      refine ⟨rfl, ?_, ?_, ?_⟩
      · rintro (⟨k, hk⟩ | ⟨k, hk⟩ | hk) <;> simp at hk
      · intro _h
        refine ⟨rfl, ?_⟩
        show { st with closed := true } = st
        cases st
        simp_all
      · intro hk
        simp at hk
  | getInputSession k =>
      refine ⟨?_, ?_, ?_, ?_⟩
      · simp [engineStep, h]
      · intro _h
        simp [engineStep, h]
      · intro hk
        simp at hk
      · intro hk
        simp at hk
  | getOutputSession k =>
      refine ⟨?_, ?_, ?_, ?_⟩
      · simp [engineStep, h]
      · intro _h
        simp [engineStep, h]
      · intro hk
        simp at hk
      · intro hk
        simp at hk
  | sendTransferOp =>
      refine ⟨?_, ?_, ?_, ?_⟩
      · simp [engineStep, h]
      · intro _h
        simp [engineStep, h]
      · intro hk
        simp at hk
      · intro hk
        simp at hk
  | sampleStatistics =>
      refine ⟨?_, ?_, ?_, ?_⟩
      · simp [engineStep, h]
      · rintro (⟨k, hk⟩ | ⟨k, hk⟩ | hk) <;> simp at hk
      · intro hk
        simp at hk
      · intro _h
        rfl

theorem serial_closed_terminal_witness :
    (engineStep closedEngine (.getInputSession (.message 0, none))).2 =
      .resourceClosedError :=
  (serial_closed_terminal closedEngine (.getInputSession (.message 0, none)) rfl).2.1
    (Or.inl ⟨_, rfl⟩)
